import Mathlib

/-!
Verification of the filtering / aggregation / derived-metrics core of the
restaurant-sales dashboard (`dashboard.py`, `change_theme.py`,
`test_new_layout.py`, `dashboard_updated_frame.py`).

The shallow embedding below translates the pandas pipeline into pure Lean
functions over lists of records.  Currency amounts are embedded as `Rat`
(the scripts use them as exact decimal values), dates as explicit
year/month/day triples, and the pandas `NaN` produced by
`pd.Categorical` for out-of-vocabulary `time_of_sale` values as
`Option.none`.
-/

namespace RestaurantSales

/-- Calendar date, as produced by the `parse_date` helper of the scripts. -/
structure Date where
  year : Nat
  month : Nat
  day : Nat
deriving DecidableEq, Repr

/-- Boolean date comparison mirroring chronological (`datetime`) order:
lexicographic on (year, month, day). -/
def Date.le (a b : Date) : Bool :=
  decide (a.year < b.year) ||
    (decide (a.year = b.year) &&
      (decide (a.month < b.month) ||
        (decide (a.month = b.month) && decide (a.day ≤ b.day))))

/-- Propositional form of chronological date order. -/
def Date.Le (a b : Date) : Prop :=
  a.year < b.year ∨
    (a.year = b.year ∧ (a.month < b.month ∨ (a.month = b.month ∧ a.day ≤ b.day)))

instance (a b : Date) : Decidable (Date.Le a b) := by
  unfold Date.Le; infer_instance

/-- The fixed `time_of_sale` vocabulary and its display order
(`time_of_sale_order` in the scripts). -/
def time_of_sale_order : List String :=
  ["Morning", "Afternoon", "Evening", "Night", "Midnight"]

/-- A raw CSV row after date parsing: `date = none` models a date that failed
every format (`NaT`), `transaction_type = none` models a null payment
method. -/
structure RawRow where
  order_id : Nat
  date : Option Date
  item_name : String
  item_type : String
  transaction_type : Option String
  time_of_sale : String
  received_by : String
  quantity : Nat
  transaction_amount : Rat
deriving DecidableEq, Repr

/-- A normalized transaction record (a row of `sales_over_time` after the
preprocessing block): valid date, non-null trimmed `transaction_type`,
`time_of_sale` coerced to the fixed vocabulary (`none` = the `NaN` that
`pd.Categorical` assigns to out-of-vocabulary values). -/
structure Record where
  order_id : Nat
  date : Date
  item_name : String
  item_type : String
  transaction_type : String
  time_of_sale : Option String
  received_by : String
  quantity : Nat
  transaction_amount : Rat
deriving DecidableEq, Repr

/-- `pd.Categorical(col, categories=time_of_sale_order)`: in-vocabulary values
are kept, anything else becomes `NaN` (here `none`). -/
def toCategorical (t : String) : Option String :=
  if t ∈ time_of_sale_order then some t else none

/-- Normalization of one raw row: rows with an unparseable date or a null
`transaction_type` are dropped (`dropna`), `transaction_type` is stripped of
surrounding whitespace, `time_of_sale` is coerced to the categorical
vocabulary. -/
def normalizeRow (r : RawRow) : Option Record :=
  match r.date, r.transaction_type with
  | some d, some tt =>
      some { order_id := r.order_id, date := d, item_name := r.item_name,
             item_type := r.item_type, transaction_type := tt.trim,
             time_of_sale := toCategorical r.time_of_sale,
             received_by := r.received_by, quantity := r.quantity,
             transaction_amount := r.transaction_amount }
  | _, _ => none

/-- The whole preprocessing block (lines 13-38 of the scripts). -/
def normalize (rows : List RawRow) : List Record :=
  rows.filterMap normalizeRow

/-- The sortable month key `year_month` (`date.dt.to_period('M')`), derived
once at normalization time; `year * 100 + month` is order-isomorphic to the
`"YYYY-MM"` string key of the scripts. -/
def yearMonth (r : Record) : Nat :=
  r.date.year * 100 + r.date.month

/-- The constraint set assembled by the dashboard callbacks: inclusive date /
amount / quantity ranges, categorical selections, and the optional month
filter (`none` = the `'All the time'` choice). -/
structure Constraints where
  startDate : Date
  endDate : Date
  amountMin : Rat
  amountMax : Rat
  qtyMin : Nat
  qtyMax : Nat
  itemTypes : List String
  itemNames : List String
  paymentMethods : List String
  timesOfSale : List String
  month : Option Nat
deriving Repr

/-- `filtered_data['time_of_sale'].isin(selected_times)`: a `NaN`
(out-of-vocabulary) value is never a member, so such rows are filtered out. -/
def tosMember (ts : List String) : Option String → Bool
  | some t => decide (t ∈ ts)
  | none => false

/-- One record's conjunction of all filter predicates, mirroring the chained
boolean masks of `update_dashboard` (dashboard.py lines 209-219 and
change_theme.py lines 466-476): inclusive range bounds, `isin` membership
tests, and the month equality test. -/
def recordMatches (c : Constraints) (r : Record) : Bool :=
  Date.le c.startDate r.date && Date.le r.date c.endDate &&
  decide (c.amountMin ≤ r.transaction_amount) &&
  decide (r.transaction_amount ≤ c.amountMax) &&
  decide (c.qtyMin ≤ r.quantity) && decide (r.quantity ≤ c.qtyMax) &&
  decide (r.item_type ∈ c.itemTypes) &&
  decide (r.item_name ∈ c.itemNames) &&
  decide (r.transaction_type ∈ c.paymentMethods) &&
  tosMember c.timesOfSale r.time_of_sale &&
  (match c.month with
   | none => true
   | some m => decide (yearMonth r = m))

/-- The filter engine: the chained boolean-mask subsetting of
`update_dashboard`. -/
def filterRecords (c : Constraints) (rs : List Record) : List Record :=
  rs.filter (recordMatches c)

/-- Semantic statement that one record satisfies every supplied predicate of a
constraint set: inclusive date range, inclusive amount and quantity ranges,
categorical memberships, an in-vocabulary selected time of sale, and the
month filter when supplied. -/
def Satisfies (c : Constraints) (r : Record) : Prop :=
  Date.Le c.startDate r.date ∧ Date.Le r.date c.endDate ∧
  c.amountMin ≤ r.transaction_amount ∧ r.transaction_amount ≤ c.amountMax ∧
  c.qtyMin ≤ r.quantity ∧ r.quantity ≤ c.qtyMax ∧
  r.item_type ∈ c.itemTypes ∧ r.item_name ∈ c.itemNames ∧
  r.transaction_type ∈ c.paymentMethods ∧
  (∃ t, r.time_of_sale = some t ∧ t ∈ c.timesOfSale) ∧
  (∀ m, c.month = some m → yearMonth r = m)

instance (c : Constraints) (r : Record) : Decidable (Satisfies c r) := by
  unfold Satisfies; infer_instance

/-- First-occurrence deduplication with an accumulator of already-seen values:
the semantics of `pandas.unique` / `Series.unique` (order of first
appearance). -/
def uniqueAux {α : Type} [DecidableEq α] (seen : List α) : List α → List α
  | [] => []
  | x :: xs => if x ∈ seen then uniqueAux seen xs else x :: uniqueAux (x :: seen) xs

/-- Distinct values of a column in order of first appearance
(`Series.unique`). -/
def uniqueFirst {α : Type} [DecidableEq α] (l : List α) : List α :=
  uniqueAux [] l

/-- `groupby(key)[measure].sum()` with the default `sort=True`: the distinct
keys, sorted ascending by `le` (a stable sort, matching pandas), each paired
with the sum of the measure over its group. -/
def groupBySum {α : Type} [DecidableEq α] (le : α → α → Prop) [DecidableRel le]
    (key : Record → α) (f : Record → Rat) (rs : List Record) : List (α × Rat) :=
  ((uniqueFirst (rs.map key)).insertionSort le).map
    fun k => (k, ((rs.filter fun r => decide (key r = k)).map f).sum)

/-- `filtered_data.groupby('year_month').agg({'transaction_amount': 'sum'})`
(dashboard.py lines 222-224): monthly buckets in ascending month order. -/
def monthlySales (rs : List Record) : List (Nat × Rat) :=
  groupBySum (· ≤ ·) yearMonth (fun r => r.transaction_amount) rs

/-- Number of records falling in one monthly bucket. -/
def monthBucketSize (rs : List Record) (m : Nat) : Nat :=
  (rs.filter fun r => decide (yearMonth r = m)).length

/-- KPI: `filtered_data['transaction_amount'].sum()` (0 on an empty frame). -/
def totalSales (rs : List Record) : Rat :=
  (rs.map (·.transaction_amount)).sum

/-- KPI: `filtered_data['transaction_amount'].mean()`; pandas yields `NaN` on
an empty frame (no exception), modelled as `none`. -/
def meanTransactionAmount (rs : List Record) : Option Rat :=
  if rs.length = 0 then none else some (totalSales rs / (rs.length : Rat))

/-- KPI: `filtered_data['order_id'].nunique()`. -/
def distinctOrderCount (rs : List Record) : Nat :=
  (uniqueFirst (rs.map (·.order_id))).length

/-- `Series.idxmax`: position of the first occurrence of the maximum.
pandas raises `ValueError` ("attempt to get argmax of an empty sequence") on
an empty series; the `none` result models exactly that error case. -/
def idxmaxQ (l : List Rat) : Option Nat :=
  match l.max? with
  | none => none
  | some m => l.indexOf? m

/-- `rolling(window=3, min_periods=1).mean()`
(change_theme.py line 124): the mean of the trailing up-to-3 values ending at
each position (partial windows at the start of the series). -/
def movingAvg3 (l : List Rat) : List Rat :=
  (List.range l.length).map fun i =>
    ((l.take (i + 1)).drop (i - 2)).sum / (((l.take (i + 1)).drop (i - 2)).length : Rat)

/-- `rolling(window=3).mean()` (dashboard.py line 226, default
`min_periods = window`): `NaN` (`none`) until three periods are available. -/
def movingAvg3Strict (l : List Rat) : List (Option Rat) :=
  (List.range l.length).map fun i =>
    if i < 2 then none else some (((l.take (i + 1)).drop (i - 2)).sum / 3)

/-- Column vocabulary of the popularity pivot: the distinct `item_name`
values, in the ascending order the pivoted frame's columns get
(`pivot_table` sorts its column labels). -/
def pivotCols (rs : List Record) : List String :=
  (uniqueFirst (rs.map (·.item_name))).insertionSort (· ≤ ·)

/-- Row labels of the popularity pivot
(`pivot_table(index='time_of_sale', ..., observed=False)` with the ordered
categorical index, pandas 2.x semantics): every one of the five fixed
categories, in category order, whenever the frame is nonempty; an empty
frame pivots to an empty frame. -/
def pivotRows (rs : List Record) : List String :=
  if rs.isEmpty then [] else time_of_sale_order

/-- One cell of the popularity pivot: the summed quantity for a
(time-of-sale, item) pair; 0 when no record matches (`fill_value=0`, and
pandas 2.x group sums of empty groups). Records whose `time_of_sale` is
`NaN` are dropped from the grouping. -/
def pivotCell (rs : List Record) (t c : String) : Nat :=
  ((rs.filter fun r =>
      decide (r.time_of_sale = some t) && decide (r.item_name = c)).map (·.quantity)).sum

/-- The pivoted-then-melted popularity data
(dashboard.py lines 356-364): `melt` enumerates every value column and, for
each, every row — one `(time_of_sale, item_name, value)` entry per
(row, column) pair. -/
def pivotMelt (rs : List Record) : List (String × String × Nat) :=
  (pivotCols rs).flatMap fun c => (pivotRows rs).map fun t => (t, c, pivotCell rs t c)

/-- The grouping triple of the flow-graph builder. -/
def tripleOf (r : Record) : String × String × String :=
  (r.item_name, r.item_type, r.transaction_type)

/-- Lexicographic order on grouping triples: the ascending key order produced
by `groupby(['item_name', 'item_type', 'transaction_type'])`. -/
def tripleLe (a b : String × String × String) : Prop :=
  a.1 < b.1 ∨ (a.1 = b.1 ∧ (a.2.1 < b.2.1 ∨ (a.2.1 = b.2.1 ∧ a.2.2 ≤ b.2.2)))

instance (a b : String × String × String) : Decidable (tripleLe a b) := by
  unfold tripleLe; infer_instance

/-- `groupby(['item_name', 'item_type', 'transaction_type']).size()`
(dashboard.py line 405): distinct triples in ascending key order, each with
its row count. -/
def sankeyTriples (rs : List Record) : List ((String × String × String) × Nat) :=
  ((uniqueFirst (rs.map tripleOf)).insertionSort tripleLe).map
    fun k => (k, (rs.filter fun r => decide (tripleOf r = k)).length)

/-- `sankey_data['item_name'].unique()`: distinct item names in order of
appearance in the grouped frame. -/
def sankeyNames (rs : List Record) : List String :=
  uniqueFirst ((sankeyTriples rs).map fun t => t.1.1)

/-- `sankey_data['item_type'].unique()`. -/
def sankeyTypes (rs : List Record) : List String :=
  uniqueFirst ((sankeyTriples rs).map fun t => t.1.2.1)

/-- `sankey_data['transaction_type'].unique()`. -/
def sankeyPayments (rs : List Record) : List String :=
  uniqueFirst ((sankeyTriples rs).map fun t => t.1.2.2)

/-- `all_nodes` (dashboard.py line 406): the concatenation of the three
role-partitioned vocabularies. -/
def sankeyNodes (rs : List Record) : List String :=
  sankeyNames rs ++ sankeyTypes rs ++ sankeyPayments rs

/-- Index of the last occurrence of a label in a list. -/
def lastIndexOf (x : String) : List String → Option Nat
  | [] => none
  | a :: as =>
    match lastIndexOf x as with
    | some i => some (i + 1)
    | none => if a = x then some 0 else none

/-- `node_indices = {node: i for i, node in enumerate(all_nodes)}`
(dashboard.py line 407): the dict comprehension overwrites earlier entries,
so a label occurring in several role segments resolves to its LAST position
in `all_nodes`. -/
def nodeIndex (nodes : List String) (x : String) : Nat :=
  (lastIndexOf x nodes).getD 0

/-- The `source` index list of the Sankey links (dashboard.py lines
418-419): item-name lookups for the first hop, then item-type lookups for
the second hop. -/
def sankeySources (rs : List Record) : List Nat :=
  (sankeyTriples rs).map (fun t => nodeIndex (sankeyNodes rs) t.1.1) ++
  (sankeyTriples rs).map (fun t => nodeIndex (sankeyNodes rs) t.1.2.1)

/-- The `target` index list of the Sankey links (dashboard.py lines
420-421). -/
def sankeyTargets (rs : List Record) : List Nat :=
  (sankeyTriples rs).map (fun t => nodeIndex (sankeyNodes rs) t.1.2.1) ++
  (sankeyTriples rs).map (fun t => nodeIndex (sankeyNodes rs) t.1.2.2)

/-- The edge weights `sankey_data['count'].tolist() * 2`. -/
def sankeyValues (rs : List Record) : List Nat :=
  (sankeyTriples rs).map (·.2) ++ (sankeyTriples rs).map (·.2)

/-- Descending-value comparison used by `Series.nlargest`. -/
def valueGE (a b : String × Rat) : Prop := b.2 ≤ a.2

instance : DecidableRel valueGE := fun a b => inferInstanceAs (Decidable (b.2 ≤ a.2))

instance : IsTotal (String × Rat) valueGE := ⟨fun a b => le_total b.2 a.2⟩

instance : IsTrans (String × Rat) valueGE := ⟨fun _ _ _ h1 h2 => le_trans h2 h1⟩

/-- `Series.nlargest(n)` with the default `keep='first'`: a stable sort by
descending value followed by taking the first `n` entries (ties keep the
order they had in the input series). -/
def nlargest (n : Nat) (l : List (String × Rat)) : List (String × Rat) :=
  (l.insertionSort valueGE).take n

/-- Group keys actually used by a `groupby('time_of_sale')`: `NaN` keys are
dropped by pandas, so only in-vocabulary values can key a group. -/
def tosGroupKeys (rs : List Record) : List String :=
  uniqueFirst (rs.filterMap (·.time_of_sale))

/-! ### Concrete sample data used by witnesses and counterexamples -/

/-- Convenience constructor for normalized records. -/
def mkRecord (oid y m d : Nat) (iname itype ttype : String) (tos : Option String)
    (recv : String) (q : Nat) (amt : Rat) : Record :=
  ⟨oid, ⟨y, m, d⟩, iname, itype, ttype, tos, recv, q, amt⟩

/-- First record of the spec's example scenario. -/
def rBurger : Record :=
  mkRecord 1 2022 1 5 "Burger" "Fastfood" "Cash" (some "Morning") "Mr." 2 10

/-- Second record of the spec's example scenario. -/
def rSoda : Record :=
  mkRecord 2 2022 2 10 "Soda" "Beverages" "Online" (some "Evening") "Mrs." 1 5

/-- The two-record input of the spec's example scenario. -/
def pairRecords : List Record := [rBurger, rSoda]

/-- A permissive constraint set whose date range is January 2022. -/
def cJan2022 : Constraints :=
  ⟨⟨2022, 1, 1⟩, ⟨2022, 1, 31⟩, 0, 1000, 0, 100, ["Fastfood", "Beverages"],
   ["Burger", "Soda"], ["Cash", "Online"], time_of_sale_order, none⟩

/-- A constraint set selecting no payment method at all: its filtered subset
is always empty. -/
def cNoPayment : Constraints :=
  ⟨⟨2022, 1, 1⟩, ⟨2022, 12, 31⟩, 0, 1000, 0, 100, ["Fastfood", "Beverages"],
   ["Burger", "Soda"], [], time_of_sale_order, none⟩

/-- A constraint set with an inverted amount range (min 5 > max 3). -/
def cBadRange : Constraints :=
  ⟨⟨2022, 1, 1⟩, ⟨2022, 12, 31⟩, 5, 3, 0, 100, ["Fastfood", "Beverages"],
   ["Burger", "Soda", "Fries"], ["Cash", "Online"], time_of_sale_order, none⟩

/-- The same constraint set with the amount bounds swapped back (min 3,
max 5). -/
def cSwapRange : Constraints :=
  ⟨⟨2022, 1, 1⟩, ⟨2022, 12, 31⟩, 3, 5, 0, 100, ["Fastfood", "Beverages"],
   ["Burger", "Soda", "Fries"], ["Cash", "Online"], time_of_sale_order, none⟩

/-- A record with transaction amount 4, inside the swapped range [3, 5]. -/
def rFries : Record :=
  mkRecord 3 2022 3 1 "Fries" "Fastfood" "Cash" (some "Night") "Mr." 1 4

/-- A record whose item name equals its item type: the same string in two
different node roles of the flow graph. -/
def rSameLabel : Record :=
  mkRecord 7 2022 1 7 "X" "X" "Cash" (some "Morning") "Mr." 1 5

/-- Record with a given item name: one sale of one unit for one currency
unit, used to build tied grouped sums. -/
def mkItemRec (oid : Nat) (iname : String) : Record :=
  mkRecord oid 2022 1 oid iname "Fastfood" "Cash" (some "Morning") "Mr." 1 1

/-- Six one-unit sales whose first-seen item order is the reverse of
alphabetical order: all six grouped sums tie at 1. -/
def tieRecords : List Record :=
  [mkItemRec 1 "f", mkItemRec 2 "e", mkItemRec 3 "d",
   mkItemRec 4 "c", mkItemRec 5 "b", mkItemRec 6 "a"]

/-- A raw row that survives normalization unchanged (modulo trimming). -/
def rawGood : RawRow :=
  ⟨1, some ⟨2022, 1, 5⟩, "Burger", "Fastfood", some " Cash ", "Morning", "Mr.", 2, 10⟩

/-- A raw row whose `time_of_sale` is outside the fixed vocabulary. -/
def rawOddTos : RawRow :=
  ⟨2, some ⟨2022, 1, 6⟩, "Soda", "Beverages", some "Online", "Noon", "Mrs.", 1, 5⟩

/-- A raw row whose date failed to parse. -/
def rawBadDate : RawRow :=
  ⟨3, none, "Tea", "Beverages", some "Cash", "Morning", "Mr.", 1, 3⟩

/-- A small raw batch exercising all normalization paths. -/
def rawRows : List RawRow := [rawGood, rawOddTos, rawBadDate]

/-- The normalized record produced from `rawOddTos`: the out-of-vocabulary
time of sale "Noon" becomes the categorical `NaN` (`none`), the record
itself survives. -/
def recOdd : Record :=
  ⟨2, ⟨2022, 1, 6⟩, "Soda", "Beverages", "Online".trim, toCategorical "Noon",
   "Mrs.", 1, 5⟩

/-! ## General lemmas about the embedding -/

theorem Date.le_iff (a b : Date) : Date.le a b = true ↔ Date.Le a b := by
  simp [Date.le, Date.Le]

theorem recordMatches_iff (c : Constraints) (r : Record) :
    recordMatches c r = true ↔ Satisfies c r := by
  unfold recordMatches Satisfies
  cases h : r.time_of_sale with
  | none =>
      simp [tosMember, h, Date.le_iff]
  | some t =>
      cases hm : c.month with
      | none => simp [tosMember, h, hm, Date.le_iff, and_assoc]
      | some m => simp [tosMember, h, hm, Date.le_iff, and_assoc]

theorem mem_uniqueAux {α : Type} [DecidableEq α] {x : α} :
    ∀ (seen l : List α), x ∈ uniqueAux seen l ↔ x ∈ l ∧ x ∉ seen := by
  intro seen l
  induction l generalizing seen with
  | nil => simp [uniqueAux]
  | cons a as ih =>
      by_cases ha : a ∈ seen
      · simp only [uniqueAux, if_pos ha, ih, List.mem_cons]
        constructor
        · rintro ⟨hx, hs⟩; exact ⟨Or.inr hx, hs⟩
        · rintro ⟨hx | hx, hs⟩
          · exact absurd (hx ▸ ha) hs
          · exact ⟨hx, hs⟩
      · simp only [uniqueAux, if_neg ha, List.mem_cons, ih]
        constructor
        · rintro (rfl | ⟨hx, hs⟩)
          · exact ⟨Or.inl rfl, ha⟩
          · simp only [List.mem_cons, not_or] at hs
            exact ⟨Or.inr hx, hs.2⟩
        · rintro ⟨rfl | hx, hs⟩
          · exact Or.inl rfl
          · by_cases hxa : x = a
            · exact Or.inl hxa
            · exact Or.inr ⟨hx, by simp [hxa, hs]⟩

theorem mem_uniqueFirst {α : Type} [DecidableEq α] {x : α} {l : List α} :
    x ∈ uniqueFirst l ↔ x ∈ l := by
  simp [uniqueFirst, mem_uniqueAux]

theorem nodup_uniqueAux {α : Type} [DecidableEq α] :
    ∀ (seen l : List α), (uniqueAux seen l).Nodup := by
  intro seen l
  induction l generalizing seen with
  | nil => simp [uniqueAux]
  | cons a as ih =>
      by_cases ha : a ∈ seen
      · simpa [uniqueAux, if_pos ha] using ih seen
      · simp only [uniqueAux, if_neg ha]
        refine List.Pairwise.cons ?_ (ih (a :: seen))
        intro b hb
        have := (mem_uniqueAux (a :: seen) as).mp hb
        simp only [List.mem_cons, not_or] at this
        exact fun hab => this.2.1 hab.symm

theorem nodup_uniqueFirst {α : Type} [DecidableEq α] (l : List α) :
    (uniqueFirst l).Nodup :=
  nodup_uniqueAux [] l

theorem sum_map_filter_add {β : Type} (p : β → Bool) (f : β → Rat) :
    ∀ l : List β,
      ((l.filter p).map f).sum + ((l.filter fun b => !p b).map f).sum = (l.map f).sum := by
  intro l
  induction l with
  | nil => simp
  | cons b bs ih =>
      by_cases hb : p b
      · simp only [List.filter_cons, hb, Bool.not_true, if_true, if_neg
          (by simp : ¬(false = true)), List.map_cons, List.sum_cons]
        rw [add_assoc, ih]
      · simp only [List.filter_cons, hb, Bool.not_false, if_true, if_neg
          (by simp : ¬(false = true)), List.map_cons, List.sum_cons]
        rw [add_left_comm, ih]

/-! ## Claim C3: filter soundness, completeness and order preservation -/

/-- Claim C3: for every record set and constraint set, every record in the
filtered output satisfies all supplied predicates simultaneously (range
bounds inclusive, categorical membership), no record violating any of the
predicates appears (conversely, every satisfying input record is kept), and
the output is an order-preserving subsequence of the input. -/
theorem filter_satisfies_all_constraints (c : Constraints) (rs : List Record) :
    (∀ r ∈ filterRecords c rs, Satisfies c r) ∧
    (∀ r ∈ rs, Satisfies c r → r ∈ filterRecords c rs) ∧
    (filterRecords c rs).Sublist rs := by
  refine ⟨?_, ?_, List.filter_sublist rs⟩
  · intro r hr
    exact (recordMatches_iff c r).mp (List.mem_filter.mp hr).2
  · intro r hr hs
    exact List.mem_filter.mpr ⟨hr, (recordMatches_iff c r).mpr hs⟩

/-- Witness for C3 at the spec's example scenario. -/
theorem filter_satisfies_all_constraints_witness :
    Satisfies cJan2022 rBurger ∧ (filterRecords cJan2022 pairRecords).Sublist pairRecords :=
  ⟨(filter_satisfies_all_constraints cJan2022 pairRecords).1 rBurger (by decide),
   (filter_satisfies_all_constraints cJan2022 pairRecords).2.2⟩

/-! ## Claim C7: filtering is idempotent -/

/-- Claim C7: applying the filter to the already-filtered output with the
same constraint set returns a set identical to that output. -/
theorem filter_idempotent (c : Constraints) (rs : List Record) :
    filterRecords c (filterRecords c rs) = filterRecords c rs := by
  simp [filterRecords, List.filter_filter]

/-! ## Claim C8: an inverted numeric range is not surfaced as an error -/

/-- Claim C8 counterexample: with amount bounds min 5 > max 3, the filter
call returns normally — there is no error path in the chained-mask code, so
no InvalidRange error can be surfaced — and silently produces the empty
subset.  The bounds are not swapped either: the amount-4 record that the
swapped range [3, 5] keeps is discarded by the inverted range. -/
theorem invalid_range_counterexample :
    filterRecords cBadRange [rFries] = [] ∧
    filterRecords cSwapRange [rFries] = [rFries] := by
  exact ⟨by decide, by decide⟩

/-- Claim C8 (amended): a numeric range constraint with min > max (amount or
quantity) is silently absorbed: the two inclusive bound predicates cannot
hold together, so the filter returns the empty subset, raising no error and
swapping no bounds. -/
theorem invalid_range_silently_empty (c : Constraints) (rs : List Record)
    (h : c.amountMax < c.amountMin ∨ c.qtyMax < c.qtyMin) :
    filterRecords c rs = [] := by
  rw [filterRecords, List.filter_eq_nil_iff]
  intro r _ hm
  have hs := (recordMatches_iff c r).mp hm
  rcases h with h | h
  · exact absurd (le_trans hs.2.2.1 hs.2.2.2.1) (not_le.mpr h)
  · exact absurd (le_trans hs.2.2.2.2.1 hs.2.2.2.2.2.1) (not_le.mpr h)

/-- Witness for the amended C8 at the inverted amount range. -/
theorem invalid_range_silently_empty_witness :
    cBadRange.amountMax < cBadRange.amountMin ∧ filterRecords cBadRange [rFries] = [] :=
  ⟨by decide, invalid_range_silently_empty cBadRange [rFries] (Or.inl (by decide))⟩

/-! ## Claim C6: the spec's example scenario -/

/-- Claim C6 counterexample: on the spec's two-record example the 3-period
moving average of the monthly series [10, 5] is [10, 15/2] — at the second
point it is the mean of the two available months (change_theme.py's
`rolling(window=3, min_periods=1)`), not the raw value 5 — so it does not
equal the raw series at each of the two points as the claim states. -/
theorem example_scenario_counterexample :
    movingAvg3 ((monthlySales pairRecords).map Prod.snd) ≠
      (monthlySales pairRecords).map Prod.snd := by
  have h : monthlySales pairRecords = [(202201, 10), (202202, 5)] := by
    norm_num [monthlySales, groupBySum, pairRecords, rBurger, rSoda, mkRecord,
      uniqueFirst, uniqueAux, yearMonth, List.insertionSort, List.orderedInsert]
  have h2 : movingAvg3 [(10 : Rat), 5] = [10, 15 / 2] := by
    norm_num [movingAvg3, List.range_succ]
  rw [h]
  simp only [List.map_cons, List.map_nil]
  rw [h2]
  intro hc
  have := List.cons.injEq (10 : Rat) [15 / 2] 10 [5] ▸ hc
  simp only [List.cons.injEq] at hc
  have : (15 / 2 : Rat) = 5 := hc.2.1
  norm_num at this

/-- Claim C6 (amended): filtering the two-record example with the January
2022 date range yields exactly the first record; monthly aggregation of the
unfiltered pair yields two one-record buckets with sums 10 and 5; the
3-period moving average with partial windows (change_theme.py) equals the
raw value 10 at the first point and the two-month mean 15/2 at the second,
while dashboard.py's strict 3-period window (`rolling(window=3)`) leaves
both points undefined (NaN). -/
theorem example_scenario :
    filterRecords cJan2022 pairRecords = [rBurger] ∧
    monthlySales pairRecords = [(202201, 10), (202202, 5)] ∧
    monthBucketSize pairRecords 202201 = 1 ∧
    monthBucketSize pairRecords 202202 = 1 ∧
    movingAvg3 ((monthlySales pairRecords).map Prod.snd) = [10, 15 / 2] ∧
    movingAvg3Strict ((monthlySales pairRecords).map Prod.snd) = [none, none] := by
  have h : monthlySales pairRecords = [(202201, 10), (202202, 5)] := by
    norm_num [monthlySales, groupBySum, pairRecords, rBurger, rSoda, mkRecord,
      uniqueFirst, uniqueAux, yearMonth, List.insertionSort, List.orderedInsert]
  refine ⟨by decide, h, by decide, by decide, ?_, ?_⟩
  · rw [h]
    norm_num [movingAvg3, List.range_succ]
  · rw [h]
    norm_num [movingAvg3Strict, List.range_succ]

/-! ## Claim C1: empty filtered subset — KPIs are safe, the peak lookup is not -/

/-- Claim C1 (code-bug evidence): over an empty filtered subset the KPI
summary is safe — total 0, distinct order count 0, mean `NaN` (`none`)
rather than a crash — and the monthly aggregation is the empty mapping, but
the "highest sales" peak lookup hits the error case of `idxmax`
(dashboard.py line 253): `none` here models the `ValueError` pandas raises
for `idxmax` on an empty series, so the sales-trends computation does raise
an error, contradicting the empty-propagates-cleanly requirement. -/
theorem empty_subset_kpis_and_peak_error (c : Constraints) (rs : List Record)
    (h : filterRecords c rs = []) :
    totalSales (filterRecords c rs) = 0 ∧
    meanTransactionAmount (filterRecords c rs) = none ∧
    distinctOrderCount (filterRecords c rs) = 0 ∧
    monthlySales (filterRecords c rs) = [] ∧
    idxmaxQ ((monthlySales (filterRecords c rs)).map Prod.snd) = none := by
  rw [h]
  exact ⟨rfl, rfl, rfl, rfl, rfl⟩

/-- Witness for C1 at a constraint set selecting no payment method. -/
theorem empty_subset_kpis_witness :
    filterRecords cNoPayment pairRecords = [] ∧
    idxmaxQ ((monthlySales (filterRecords cNoPayment pairRecords)).map Prod.snd) = none :=
  ⟨by decide, (empty_subset_kpis_and_peak_error cNoPayment pairRecords (by decide)).2.2.2.2⟩

/-! ## Claim C4: grouped sums are conserved -/

theorem sum_over_keys {α β : Type} [DecidableEq α] (key : β → α) (f : β → Rat) :
    ∀ (ks : List α) (rs : List β), ks.Nodup → (∀ r ∈ rs, key r ∈ ks) →
      (ks.map fun k => ((rs.filter fun r => decide (key r = k)).map f).sum).sum =
        (rs.map f).sum := by
  intro ks
  induction ks with
  | nil =>
      intro rs _ hcov
      have : rs = [] := by
        cases rs with
        | nil => rfl
        | cons r rs' => exact absurd (hcov r (List.mem_cons_self r rs')) (List.not_mem_nil _)
      simp [this]
  | cons k ks ih =>
      intro rs hnd hcov
      have htail :
          (ks.map fun k' => ((rs.filter fun r => decide (key r = k')).map f).sum) =
          (ks.map fun k' =>
            (((rs.filter fun r => !decide (key r = k)).filter
                fun r => decide (key r = k')).map f).sum) := by
        apply List.map_congr_left
        intro k' hk'
        have hne : k' ≠ k := fun h => (List.nodup_cons.mp hnd).1 (h ▸ hk')
        have hflt : (rs.filter fun r => decide (key r = k')) =
            ((rs.filter fun r => !decide (key r = k)).filter
              fun r => decide (key r = k')) := by
          rw [List.filter_filter]
          apply List.filter_congr
          intro r _
          by_cases hr : key r = k'
          · simp [hr, hne]
          · simp [hr]
        rw [hflt]
      have hcov' : ∀ r ∈ rs.filter fun r => !decide (key r = k), key r ∈ ks := by
        intro r hr
        have h1 := List.mem_filter.mp hr
        have h2 := hcov r h1.1
        rcases List.mem_cons.mp h2 with h | h
        · exact absurd h (by simpa using h1.2)
        · exact h
      calc ((k :: ks).map fun k' => ((rs.filter fun r => decide (key r = k')).map f).sum).sum
          = ((rs.filter fun r => decide (key r = k)).map f).sum +
            (ks.map fun k' => ((rs.filter fun r => decide (key r = k')).map f).sum).sum := by
            simp
        _ = ((rs.filter fun r => decide (key r = k)).map f).sum +
            ((rs.filter fun r => !decide (key r = k)).map f).sum := by
            rw [htail, ih _ (List.nodup_cons.mp hnd).2 hcov']
        _ = (rs.map f).sum := sum_map_filter_add _ f rs

/-- Claim C4: for every record set and every sum-reduced grouping, the sum of
the per-group reduced values over all groups equals the sum of the measure
over the ungrouped set; in particular the monthly sales buckets sum to the
total sales of the filtered set. -/
theorem groupBySum_conserves_total {α : Type} [DecidableEq α]
    (le : α → α → Prop) [DecidableRel le] (key : Record → α) (f : Record → Rat)
    (rs : List Record) :
    ((groupBySum le key f rs).map Prod.snd).sum = (rs.map f).sum ∧
    ((monthlySales rs).map Prod.snd).sum = totalSales rs := by
  have main : ∀ {α' : Type} [DecidableEq α'] (le' : α' → α' → Prop) [DecidableRel le']
      (key' : Record → α') (f' : Record → Rat),
      ((groupBySum le' key' f' rs).map Prod.snd).sum = (rs.map f').sum := by
    intro α' _ le' _ key' f'
    unfold groupBySum
    rw [List.map_map]
    have hnd : ((uniqueFirst (rs.map key')).insertionSort le').Nodup :=
      ((List.perm_insertionSort le' (uniqueFirst (rs.map key'))).nodup_iff).mpr
        (nodup_uniqueFirst _)
    have hcov : ∀ r ∈ rs, key' r ∈ (uniqueFirst (rs.map key')).insertionSort le' := by
      intro r hr
      rw [List.mem_insertionSort, mem_uniqueFirst]
      exact List.mem_map_of_mem key' hr
    exact sum_over_keys key' f' _ rs hnd hcov
  exact ⟨main le key f, main (· ≤ ·) yearMonth (fun r => r.transaction_amount)⟩

/-! ## Claim C5: the popularity pivot -/

/-- Claim C5 counterexample: on an empty filtered record set the pivoted
frame is empty — its row set is empty, not the five fixed time-of-sale
categories, and the melted output has no entries — so "the row set is
exactly the five fixed categories" fails for the empty filtered set. -/
theorem pivot_empty_counterexample :
    pivotMelt ([] : List Record) = [] ∧
    pivotRows ([] : List Record) ≠ time_of_sale_order := by
  exact ⟨by decide, by decide⟩

/-- Claim C5 (amended): for every nonempty filtered record set the pivot's
row set is exactly the five fixed time-of-sale categories in the order
Morning, Afternoon, Evening, Night, Midnight — including categories with no
records — the melted output contains exactly |rows| × |columns| entries, and
every (row, column) combination absent from the data appears with value 0.
(On an empty filtered set the pivot itself is empty.) -/
theorem pivot_rows_complete (rs : List Record) (h : rs ≠ []) :
    pivotRows rs = time_of_sale_order ∧
    (pivotMelt rs).length = (pivotRows rs).length * (pivotCols rs).length ∧
    (∀ t ∈ pivotRows rs, ∀ c ∈ pivotCols rs,
      (∀ r ∈ rs, ¬(r.time_of_sale = some t ∧ r.item_name = c)) →
      (t, c, 0) ∈ pivotMelt rs) := by
  refine ⟨?_, ?_, ?_⟩
  · rw [pivotRows, if_neg]
    simp [h]
  · rw [pivotMelt, List.flatMap]
    rw [List.length_flatten, List.map_map]
    have : ((pivotCols rs).map
        (List.length ∘ fun c => (pivotRows rs).map fun t => (t, c, pivotCell rs t c))) =
        (pivotCols rs).map fun _ => (pivotRows rs).length := by
      apply List.map_congr_left
      intro c _
      simp
    rw [this]
    rw [List.map_const', List.sum_replicate, smul_eq_mul, Nat.mul_comm]
  · intro t ht c hc habsent
    have hcell : pivotCell rs t c = 0 := by
      rw [pivotCell]
      have : (rs.filter fun r =>
          decide (r.time_of_sale = some t) && decide (r.item_name = c)) = [] := by
        rw [List.filter_eq_nil_iff]
        intro r hr
        intro hb
        simp only [Bool.and_eq_true, decide_eq_true_eq] at hb
        exact habsent r hr hb
      rw [this]
      rfl
    rw [pivotMelt, List.mem_flatMap]
    refine ⟨c, hc, ?_⟩
    rw [← hcell]
    exact List.mem_map_of_mem _ ht

/-- Witness for the amended C5: on the two-record example every category row
is present in order, the melt has 5 × 2 entries, and the empty
(Night, Burger) combination appears with value 0. -/
theorem pivot_rows_complete_witness :
    pivotRows pairRecords = time_of_sale_order ∧
    ("Night", "Burger", 0) ∈ pivotMelt pairRecords := by
  have hc : "Burger" ∈ pivotCols pairRecords := by
    norm_num +decide [pivotCols, pairRecords, rBurger, rSoda, mkRecord,
      uniqueFirst, uniqueAux, List.insertionSort, List.orderedInsert]
  exact ⟨(pivot_rows_complete pairRecords (by decide)).1,
    (pivot_rows_complete pairRecords (by decide)).2.2 "Night" (by decide) "Burger"
      hc (by decide)⟩

/-! ## Claim C2: flow-graph node identity -/

theorem lastIndexOf_eq_none_iff (x : String) :
    ∀ l : List String, lastIndexOf x l = none ↔ x ∉ l := by
  intro l
  induction l with
  | nil => simp [lastIndexOf]
  | cons a as ih =>
      cases h : lastIndexOf x as with
      | some j =>
          simp only [lastIndexOf, h]
          have : x ∈ as := by
            by_contra hx
            rw [(ih).mpr hx] at h
            exact Option.noConfusion h
          simp [this]
      | none =>
          have has : x ∉ as := (ih).mp h
          by_cases hax : a = x
          · simp [lastIndexOf, h, hax]
          · simp only [lastIndexOf, h, if_neg hax, List.mem_cons, not_or]
            exact ⟨fun _ => ⟨fun hxa => hax hxa.symm, has⟩, fun _ => trivial⟩

theorem lastIndexOf_lt_length (x : String) :
    ∀ (l : List String) (j : Nat), lastIndexOf x l = some j → j < l.length := by
  intro l
  induction l with
  | nil => intro j h; exact Option.noConfusion h
  | cons a as ih =>
      intro j h
      simp only [lastIndexOf] at h
      cases h2 : lastIndexOf x as with
      | some i =>
          rw [h2] at h
          cases h
          exact Nat.succ_lt_succ (ih i h2)
      | none =>
          rw [h2] at h
          by_cases hax : a = x
          · rw [if_pos hax] at h
            cases h
            exact Nat.succ_pos _
          · rw [if_neg hax] at h
            exact Option.noConfusion h

theorem lastIndexOf_append (x : String) :
    ∀ l1 l2 : List String,
      lastIndexOf x (l1 ++ l2) =
        match lastIndexOf x l2 with
        | some j => some (l1.length + j)
        | none => lastIndexOf x l1 := by
  intro l1 l2
  induction l1 with
  | nil => cases h : lastIndexOf x l2 <;> simp [lastIndexOf, h]
  | cons a as ih =>
      cases h2 : lastIndexOf x l2 with
      | some j =>
          simp only [h2] at ih
          simp only [List.cons_append, lastIndexOf, List.append_eq, ih, h2,
            List.length_cons]
          exact congrArg some (by omega)
      | none =>
          simp only [h2] at ih
          simp only [List.cons_append, lastIndexOf, List.append_eq, ih, h2]

/-- Claim C2 (amended): the flow graph keeps the three role vocabularies as
separate node-list segments, so its node count is the sum of the three
distinct-label counts, and a string occurring both as an item name and as an
item type (or payment method) contributes two distinct node entries.
However, edge endpoints are looked up in a dictionary keyed by label alone
(last occurrence wins), so edges are only guaranteed to point at the node of
the correct role when the three role vocabularies are pairwise disjoint. -/
theorem sankey_node_identity (rs : List Record) :
    (sankeyNodes rs).length =
      (sankeyNames rs).length + (sankeyTypes rs).length + (sankeyPayments rs).length ∧
    (∀ s, s ∈ sankeyNames rs → s ∈ sankeyTypes rs ∨ s ∈ sankeyPayments rs →
      2 ≤ (sankeyNodes rs).count s) ∧
    ((∀ x ∈ sankeyNames rs, x ∉ sankeyTypes rs ∧ x ∉ sankeyPayments rs) →
     (∀ x ∈ sankeyTypes rs, x ∉ sankeyPayments rs) →
     ∀ t ∈ sankeyTriples rs,
       nodeIndex (sankeyNodes rs) t.1.1 < (sankeyNames rs).length ∧
       (sankeyNames rs).length ≤ nodeIndex (sankeyNodes rs) t.1.2.1 ∧
       nodeIndex (sankeyNodes rs) t.1.2.1 <
         (sankeyNames rs).length + (sankeyTypes rs).length ∧
       (sankeyNames rs).length + (sankeyTypes rs).length ≤
         nodeIndex (sankeyNodes rs) t.1.2.2 ∧
       nodeIndex (sankeyNodes rs) t.1.2.2 < (sankeyNodes rs).length) := by
  refine ⟨?_, ?_, ?_⟩
  · simp [sankeyNodes, Nat.add_assoc]
  · intro s hn ho
    rw [sankeyNodes, List.count_append, List.count_append]
    have h1 : 0 < (sankeyNames rs).count s := List.count_pos_iff.mpr hn
    have h2 : 0 < (sankeyTypes rs).count s + (sankeyPayments rs).count s := by
      rcases ho with h | h
      · have := List.count_pos_iff.mpr h
        omega
      · have := List.count_pos_iff.mpr h
        omega
    omega
  · intro hd1 hd2 t ht
    have hn : t.1.1 ∈ sankeyNames rs :=
      mem_uniqueFirst.mpr (List.mem_map_of_mem _ ht)
    have hty : t.1.2.1 ∈ sankeyTypes rs :=
      mem_uniqueFirst.mpr (List.mem_map_of_mem _ ht)
    have hp : t.1.2.2 ∈ sankeyPayments rs :=
      mem_uniqueFirst.mpr (List.mem_map_of_mem _ ht)
    have hnotT := (hd1 t.1.1 hn).1
    have hnotP := (hd1 t.1.1 hn).2
    have htyP := hd2 t.1.2.1 hty
    obtain ⟨j1, hj1⟩ : ∃ j, lastIndexOf t.1.1 (sankeyNames rs) = some j := by
      cases h : lastIndexOf t.1.1 (sankeyNames rs) with
      | some j => exact ⟨j, rfl⟩
      | none => exact absurd ((lastIndexOf_eq_none_iff _ _).mp h) (not_not.mpr hn)
    obtain ⟨j2, hj2⟩ : ∃ j, lastIndexOf t.1.2.1 (sankeyTypes rs) = some j := by
      cases h : lastIndexOf t.1.2.1 (sankeyTypes rs) with
      | some j => exact ⟨j, rfl⟩
      | none => exact absurd ((lastIndexOf_eq_none_iff _ _).mp h) (not_not.mpr hty)
    obtain ⟨j3, hj3⟩ : ∃ j, lastIndexOf t.1.2.2 (sankeyPayments rs) = some j := by
      cases h : lastIndexOf t.1.2.2 (sankeyPayments rs) with
      | some j => exact ⟨j, rfl⟩
      | none => exact absurd ((lastIndexOf_eq_none_iff _ _).mp h) (not_not.mpr hp)
    have htp : lastIndexOf t.1.1 (sankeyTypes rs ++ sankeyPayments rs) = none := by
      rw [lastIndexOf_eq_none_iff]
      simp only [List.mem_append]
      rintro (h | h)
      · exact hnotT h
      · exact hnotP h
    have hidx1 : nodeIndex (sankeyNodes rs) t.1.1 = j1 := by
      rw [nodeIndex, sankeyNodes, List.append_assoc, lastIndexOf_append, htp, hj1]
      rfl
    have hmid2 : lastIndexOf t.1.2.1 (sankeyTypes rs ++ sankeyPayments rs) = some j2 := by
      rw [lastIndexOf_append, (lastIndexOf_eq_none_iff _ _).mpr htyP, hj2]
    have hidx2 : nodeIndex (sankeyNodes rs) t.1.2.1 = (sankeyNames rs).length + j2 := by
      rw [nodeIndex, sankeyNodes, List.append_assoc, lastIndexOf_append, hmid2]
      rfl
    have hmid3 : lastIndexOf t.1.2.2 (sankeyTypes rs ++ sankeyPayments rs) =
        some ((sankeyTypes rs).length + j3) := by
      rw [lastIndexOf_append, hj3]
    have hidx3 : nodeIndex (sankeyNodes rs) t.1.2.2 =
        (sankeyNames rs).length + ((sankeyTypes rs).length + j3) := by
      rw [nodeIndex, sankeyNodes, List.append_assoc, lastIndexOf_append, hmid3]
      rfl
    have hb1 := lastIndexOf_lt_length _ _ _ hj1
    have hb2 := lastIndexOf_lt_length _ _ _ hj2
    have hb3 := lastIndexOf_lt_length _ _ _ hj3
    have hlen : (sankeyNodes rs).length =
        (sankeyNames rs).length + (sankeyTypes rs).length + (sankeyPayments rs).length := by
      simp [sankeyNodes, Nat.add_assoc]
    refine ⟨?_, ?_, ?_, ?_, ?_⟩ <;> simp only [hidx1, hidx2, hidx3] <;> omega

/-- Claim C2 counterexample: for a record whose item name equals its item
type ("X"), the node list is ["X", "X", "Cash"] (two distinct "X" node
entries and node count 3 = 1 + 1 + 1, as claimed), but the label-keyed index
dictionary resolves "X" to its last occurrence: the first edge's source
index is 1, which is not inside the item-name segment [0, 1) — the edge does
not refer to the node of the item-name role, refuting the claim's edge-role
part. -/
theorem sankey_role_counterexample :
    sankeyNodes [rSameLabel] = ["X", "X", "Cash"] ∧
    (sankeyNames [rSameLabel]).length = 1 ∧
    sankeySources [rSameLabel] = [1, 1] ∧
    ¬ (sankeySources [rSameLabel]).getD 0 0 < (sankeyNames [rSameLabel]).length := by
  exact ⟨by decide, by decide, by decide, by decide⟩

/-- Witness for C2: the duplicate-label count on the "X" example, and the
role-segment bounds on the two-record example, whose three vocabularies are
pairwise disjoint. -/
theorem sankey_node_identity_witness :
    2 ≤ (sankeyNodes [rSameLabel]).count "X" ∧
    nodeIndex (sankeyNodes pairRecords) "Burger" < (sankeyNames pairRecords).length := by
  have hT : sankeyTriples pairRecords =
      [(("Burger", "Fastfood", "Cash"), 1), (("Soda", "Beverages", "Online"), 1)] := by
    norm_num +decide [sankeyTriples, tripleOf, pairRecords, rBurger, rSoda, mkRecord,
      uniqueFirst, uniqueAux, List.insertionSort, List.orderedInsert, tripleLe]
  have hN : sankeyNames pairRecords = ["Burger", "Soda"] := by
    rw [sankeyNames, hT]; decide
  have hTy : sankeyTypes pairRecords = ["Fastfood", "Beverages"] := by
    rw [sankeyTypes, hT]; decide
  have hP : sankeyPayments pairRecords = ["Cash", "Online"] := by
    rw [sankeyPayments, hT]; decide
  refine ⟨(sankey_node_identity [rSameLabel]).2.1 "X" (by decide) (Or.inl (by decide)), ?_⟩
  have h3 := (sankey_node_identity pairRecords).2.2
    (by rw [hN, hTy, hP]; decide) (by rw [hTy, hP]; decide)
    (("Burger", "Fastfood", "Cash"), 1) (by rw [hT]; decide)
  exact h3.1

/-! ## Claim C9: top-N ranking -/

theorem pair_sublist_of_pairwise {α : Type} {R : α → α → Prop}
    (hasym : ∀ x y, R x y → R y x → False) :
    ∀ {l : List α} {a b : α}, l.Pairwise R → a ∈ l → b ∈ l → R a b → ([a, b]).Sublist l := by
  intro l
  induction l with
  | nil => intro a b _ ha _ _; exact absurd ha (List.not_mem_nil a)
  | cons x xs ih =>
      intro a b hpw ha hb hab
      have hx : ∀ y ∈ xs, R x y := fun y hy => List.rel_of_pairwise_cons hpw hy
      rcases List.mem_cons.mp ha with ha1 | ha'
      · rcases List.mem_cons.mp hb with hb1 | hb'
        · have hob : a = b := ha1.trans hb1.symm
          subst hob
          exact absurd hab (fun h => hasym _ _ h h)
        · rw [ha1]
          exact List.Sublist.cons₂ x (List.singleton_sublist.mpr hb')
      · rcases List.mem_cons.mp hb with hb1 | hb'
        · exact absurd (hx a ha') (fun h => hasym a x (hb1 ▸ hab) h)
        · exact (ih (List.pairwise_cons.mp hpw).2 ha' hb' hab).cons x

theorem groupBySum_key_pairwise (key : Record → String) (f : Record → Rat)
    (rs : List Record) :
    (groupBySum (· ≤ ·) key f rs).Pairwise (fun a b => a.1 < b.1) ∧
    (groupBySum (· ≤ ·) key f rs).Nodup := by
  have hks : ((uniqueFirst (rs.map key)).insertionSort (· ≤ ·)).Pairwise
      (fun a b : String => a < b) := by
    have hsorted : ((uniqueFirst (rs.map key)).insertionSort (· ≤ ·)).Pairwise
        (fun a b : String => a ≤ b) :=
      List.sorted_insertionSort (· ≤ ·) (uniqueFirst (rs.map key))
    have hnd : ((uniqueFirst (rs.map key)).insertionSort (· ≤ ·)).Nodup :=
      ((List.perm_insertionSort (· ≤ ·) (uniqueFirst (rs.map key))).nodup_iff).mpr
        (nodup_uniqueFirst _)
    exact (hsorted.and hnd).imp fun h => lt_of_le_of_ne h.1 h.2
  constructor
  · rw [groupBySum, List.pairwise_map]
    exact hks
  · rw [groupBySum]
    refine (List.pairwise_map).mpr (hks.imp ?_)
    intro a b h hab
    rw [Prod.mk.injEq] at hab
    exact absurd (hab.1 ▸ h) (lt_irrefl _)

theorem nlargest_facts (groups : List (String × Rat)) (n : Nat)
    (hgnd : groups.Nodup) (hgpw : groups.Pairwise (fun a b => a.1 < b.1))
    (hinj : ∀ p ∈ groups, ∀ q ∈ groups, p.1 = q.1 → p = q) :
    (∀ p ∈ nlargest n groups, p ∈ groups) ∧
    (∀ p ∈ nlargest n groups, ∀ q ∈ groups, q ∉ nlargest n groups → q.2 ≤ p.2) ∧
    (∀ p ∈ nlargest n groups, ∀ q ∈ groups, q ∉ nlargest n groups →
      q.2 = p.2 → p.1 < q.1) := by
  obtain ⟨S, hS⟩ : ∃ S, List.insertionSort valueGE groups = S := ⟨_, rfl⟩
  have htop : nlargest n groups = S.take n := by rw [nlargest, hS]
  have hperm : List.Perm S groups := hS ▸ List.perm_insertionSort valueGE groups
  have hsorted : S.Pairwise valueGE := hS ▸ List.sorted_insertionSort valueGE groups
  have hSnd : S.Nodup := (hperm.nodup_iff).mpr hgnd
  have htd : S.take n ++ S.drop n = S := List.take_append_drop n S
  have hcross : ∀ p ∈ S.take n, ∀ q ∈ S.drop n, valueGE p q := by
    have hx := htd ▸ hsorted
    exact fun p hp q hq => ((List.pairwise_append.mp hx).2.2) p hp q hq
  have hdisj : ∀ a, a ∈ S.take n → a ∈ S.drop n → False := by
    have hx := htd ▸ hSnd
    intro a h1 h2
    exact (List.disjoint_of_nodup_append hx) h1 h2
  have hsplit : ∀ q ∈ groups, q ∉ nlargest n groups → q ∈ S.drop n := by
    intro q hq hqn
    have hqS : q ∈ S := hperm.mem_iff.mpr hq
    rcases List.mem_append.mp (htd ▸ hqS) with h | h
    · exact absurd (htop ▸ h) hqn
    · exact h
  refine ⟨?_, ?_, ?_⟩
  · intro p hp
    exact hperm.mem_iff.mp (List.mem_of_mem_take (htop ▸ hp))
  · intro p hp q hq hqn
    exact hcross p (htop ▸ hp) q (hsplit q hq hqn)
  · intro p hp q hq hqn heq
    have hpt : p ∈ S.take n := htop ▸ hp
    have hpg : p ∈ groups := hperm.mem_iff.mp (List.mem_of_mem_take hpt)
    have hqd : q ∈ S.drop n := hsplit q hq hqn
    have hpq : p ≠ q := fun h => hqn (h ▸ hp)
    have hkey : p.1 ≠ q.1 := fun hk => hpq (hinj p hpg q hq hk)
    rcases lt_or_gt_of_ne hkey with h | h
    · exact h
    · -- q's key precedes p's, so q precedes p in the key-sorted groups;
      -- stability of the descending sort then puts q before p in S,
      -- contradicting p ∈ take n and q ∈ drop n
      exfalso
      have hqp : ([q, p]).Sublist groups :=
        pair_sublist_of_pairwise (fun x y hx hy => absurd (lt_trans hx hy) (lt_irrefl _))
          hgpw hq hpg h
      have hge : valueGE q p := le_of_eq heq.symm
      have hqpS : ([q, p]).Sublist S :=
        hS ▸ List.pair_sublist_insertionSort hge hqp
      rcases List.sublist_append_iff.mp (htd ▸ hqpS) with ⟨l₁, l₂, heq2, h₁, h₂⟩
      cases l₁ with
      | nil =>
          rw [List.nil_append] at heq2
          rw [← heq2] at h₂
          exact hdisj p hpt (h₂.subset (by simp))
      | cons a l₁' =>
          cases l₁' with
          | nil =>
              have hl₂ : l₂ = [p] := by
                cases l₂ with
                | nil => simp at heq2
                | cons b l₂' =>
                    have hx : [q, p] = a :: b :: l₂' := by simpa using heq2
                    cases hx
                    rfl
              rw [hl₂] at h₂
              exact hdisj p hpt (h₂.subset (by simp))
          | cons b l₁'' =>
              have hx : [q, p] = a :: b :: (l₁'' ++ l₂) := by simpa using heq2
              simp only [List.cons.injEq] at hx
              obtain ⟨rfl, rfl, -⟩ := hx
              have hq1 : q ∈ S.take n := h₁.subset (by simp)
              exact hdisj q hq1 hqd

/-- Claim C9 (amended): the top-N ranking of a grouped-and-summed series
(`nlargest`, N = 5 in the top-selling / high-revenue views) returns groups
with the largest summed measure — every excluded group's sum is at most
every selected group's sum — but ties are broken by ascending group-key
order, NOT by first-seen order in the underlying record sequence: `groupby`
sorts the group keys, and `nlargest`'s stable descending sort therefore
prefers the alphabetically smallest key among equal sums. -/
theorem nlargest_spec (key : Record → String) (f : Record → Rat)
    (rs : List Record) (n : Nat) :
    (∀ p ∈ nlargest n (groupBySum (· ≤ ·) key f rs),
       p ∈ groupBySum (· ≤ ·) key f rs) ∧
    (∀ p ∈ nlargest n (groupBySum (· ≤ ·) key f rs),
     ∀ q ∈ groupBySum (· ≤ ·) key f rs,
       q ∉ nlargest n (groupBySum (· ≤ ·) key f rs) → q.2 ≤ p.2) ∧
    (∀ p ∈ nlargest n (groupBySum (· ≤ ·) key f rs),
     ∀ q ∈ groupBySum (· ≤ ·) key f rs,
       q ∉ nlargest n (groupBySum (· ≤ ·) key f rs) → q.2 = p.2 → p.1 < q.1) := by
  apply nlargest_facts
  · exact (groupBySum_key_pairwise key f rs).2
  · exact (groupBySum_key_pairwise key f rs).1
  · intro p hp q hq hk
    obtain ⟨kp, _, rfl⟩ := List.mem_map.mp hp
    obtain ⟨kq, _, rfl⟩ := List.mem_map.mp hq
    simp only at hk
    rw [hk]

/-- Claim C9 counterexample: six items, first seen in the order f, e, d, c,
b, a, each with summed quantity 1 (a six-way tie).  First-seen tie-breaking
would keep f, e, d, c, b, but the code keeps a, b, c, d, e: groupby sorts
the keys and `nlargest` keeps the alphabetically first among ties.  The
group f (first seen, tied) is excluded, refuting the first-seen tie-break. -/
theorem nlargest_counterexample :
    nlargest 5 (groupBySum (· ≤ ·) (fun r => r.item_name)
        (fun r => (r.quantity : Rat)) tieRecords) =
      [("a", 1), ("b", 1), ("c", 1), ("d", 1), ("e", 1)] ∧
    ("f", (1 : Rat)) ∈ groupBySum (· ≤ ·) (fun r => r.item_name)
        (fun r => (r.quantity : Rat)) tieRecords := by
  constructor
  · norm_num +decide [nlargest, groupBySum, tieRecords, mkItemRec, mkRecord,
      uniqueFirst, uniqueAux, List.insertionSort, List.orderedInsert, valueGE]
  · norm_num +decide [groupBySum, tieRecords, mkItemRec, mkRecord,
      uniqueFirst, uniqueAux, List.insertionSort, List.orderedInsert]

/-- Witness for the amended C9 on the six-way tie: the selected tied group
("a") alphabetically precedes the excluded tied group ("f"). -/
theorem nlargest_spec_witness :
    ((("a" : String), (1 : Rat))).1 < ((("f" : String), (1 : Rat))).1 := by
  have hg : groupBySum (· ≤ ·) (fun r => r.item_name)
      (fun r => (r.quantity : Rat)) tieRecords =
      [("a", 1), ("b", 1), ("c", 1), ("d", 1), ("e", 1), ("f", 1)] := by
    norm_num +decide [groupBySum, tieRecords, mkItemRec, mkRecord,
      uniqueFirst, uniqueAux, List.insertionSort, List.orderedInsert]
  have hn : nlargest 5 (groupBySum (· ≤ ·) (fun r => r.item_name)
      (fun r => (r.quantity : Rat)) tieRecords) =
      [("a", 1), ("b", 1), ("c", 1), ("d", 1), ("e", 1)] := by
    norm_num +decide [nlargest, groupBySum, tieRecords, mkItemRec, mkRecord,
      uniqueFirst, uniqueAux, List.insertionSort, List.orderedInsert, valueGE]
  exact (nlargest_spec (fun r => r.item_name) (fun r => (r.quantity : Rat))
      tieRecords 5).2.2
    ("a", 1) (by rw [hn]; decide)
    ("f", 1) (by rw [hg]; decide)
    (by rw [hn]; decide) (by decide)

/-! ## Claim C10: the time-of-sale vocabulary invariant -/

theorem normalizeRow_fields {row : RawRow} {rec : Record}
    (hn : normalizeRow row = some rec) :
    rec.time_of_sale = toCategorical row.time_of_sale ∧
    rec.item_name = row.item_name := by
  unfold normalizeRow at hn
  cases hd : row.date with
  | none => rw [hd] at hn; exact Option.noConfusion hn
  | some d =>
      cases htt : row.transaction_type with
      | none => rw [hd, htt] at hn; exact Option.noConfusion hn
      | some tt =>
          rw [hd, htt] at hn
          injection hn with h
          rw [← h]
          exact ⟨rfl, rfl⟩

/-- Claim C10: normalization maps every `time_of_sale` value outside the
fixed five-category vocabulary to null (`none`), so the keys of any
time-of-sale-keyed grouping over the (possibly filtered) normalized record
set stay within the five fixed categories — out-of-vocabulary values never
appear as a group key — while the affected records remain in the record set
and still contribute to groupings not keyed on `time_of_sale` (their item
name is a group key of the item grouping). -/
theorem tos_vocabulary_invariant (rows : List RawRow) :
    (∀ rec ∈ normalize rows, ∀ t, rec.time_of_sale = some t →
      t ∈ time_of_sale_order) ∧
    (∀ c, ∀ t ∈ tosGroupKeys (filterRecords c (normalize rows)),
      t ∈ time_of_sale_order) ∧
    (∀ row ∈ rows, ∀ rec, normalizeRow row = some rec →
      rec ∈ normalize rows ∧
      (row.time_of_sale ∉ time_of_sale_order → rec.time_of_sale = none)) ∧
    (∀ f : Record → Rat, ∀ rec ∈ normalize rows,
      rec.item_name ∈ (groupBySum (· ≤ ·) (fun r => r.item_name) f
        (normalize rows)).map Prod.fst) := by
  have hvocab : ∀ rec ∈ normalize rows, ∀ t, rec.time_of_sale = some t →
      t ∈ time_of_sale_order := by
    intro rec hrec t ht
    obtain ⟨row, -, hn⟩ := List.mem_filterMap.mp hrec
    have htos := (normalizeRow_fields hn).1
    rw [htos] at ht
    unfold toCategorical at ht
    by_cases hv : row.time_of_sale ∈ time_of_sale_order
    · rw [if_pos hv] at ht
      injection ht with h
      rw [← h]
      exact hv
    · rw [if_neg hv] at ht
      exact Option.noConfusion ht
  refine ⟨hvocab, ?_, ?_, ?_⟩
  · intro c t ht
    obtain ⟨rec, hrec, htos⟩ :=
      List.mem_filterMap.mp (mem_uniqueFirst.mp ht)
    exact hvocab rec (List.mem_filter.mp hrec).1 t htos
  · intro row hrow rec hn
    refine ⟨List.mem_filterMap.mpr ⟨row, hrow, hn⟩, ?_⟩
    intro hv
    have htos := (normalizeRow_fields hn).1
    rw [htos, toCategorical, if_neg hv]
  · intro f rec hrec
    have hkeys : (groupBySum (· ≤ ·) (fun r => r.item_name) f
        (normalize rows)).map Prod.fst =
        (uniqueFirst ((normalize rows).map fun r => r.item_name)).insertionSort
          (· ≤ ·) := by
      rw [groupBySum, List.map_map]
      exact List.map_id _
    rw [hkeys, List.mem_insertionSort, mem_uniqueFirst]
    exact List.mem_map_of_mem _ hrec

/-- Witness for C10 on the three-row raw batch: the "Noon" row survives
normalization with a null time of sale and its item name is still an
item-grouping key. -/
theorem tos_vocabulary_invariant_witness :
    recOdd ∈ normalize rawRows ∧
    recOdd.time_of_sale = none ∧
    recOdd.item_name ∈ (groupBySum (· ≤ ·) (fun r => r.item_name)
      (fun r => r.transaction_amount) (normalize rawRows)).map Prod.fst := by
  have h3 := (tos_vocabulary_invariant rawRows).2.2.1 rawOddTos (by decide) recOdd rfl
  exact ⟨h3.1, h3.2 (by decide),
    (tos_vocabulary_invariant rawRows).2.2.2 (fun r => r.transaction_amount) recOdd h3.1⟩

end RestaurantSales
